import Mathlib

/-!
Verification of the `uio-buffer` crate (file `src/input_buffer.rs`).

The Rust `InputBuffer` is a fixed-capacity byte buffer over a borrowed
mutable slice.  We embed it shallowly: the borrowed slice `&mut [u8]`
becomes a `List Nat` (bytes), the cursor `next_input_pos : usize` a `Nat`,
and the sticky `overflow : bool` a `Bool`.  Slice writes
(`copy_from_slice`, `copy_within`) are modelled by `writeSlice`, which
replaces the bytes of the storage starting at a given index.  Fallible
`push` returns the mutated state together with an `Except AddError Unit`
mirroring Rust's `Result<(), AddError>`.
-/

namespace UioBuffer

/-- Rust `enum AddError { Overflow }`. -/
inductive AddError where
  | Overflow
deriving DecidableEq, Repr

/-- Rust `struct InputBuffer { buffer: &mut [u8], next_input_pos: usize, overflow: bool }`. -/
structure InputBuffer where
  buffer : List Nat
  next_input_pos : Nat
  overflow : Bool
deriving DecidableEq, Repr

/-- Rust `pub fn capacity(&self) -> usize { self.buffer.len() }` -/
def capacity (b : InputBuffer) : Nat := b.buffer.length

/-- Rust `pub fn len(&self) -> usize { self.next_input_pos }` -/
def len (b : InputBuffer) : Nat := b.next_input_pos

/-- Rust `pub fn is_empty(&self) -> bool { self.next_input_pos == 0 }` -/
def is_empty (b : InputBuffer) : Bool := b.next_input_pos == 0

/-- Rust `pub fn overflown(&self) -> bool { self.overflow }` -/
def overflown (b : InputBuffer) : Bool := b.overflow

/-- Rust `pub fn new(buffer: &mut [u8]) -> InputBuffer` -/
def new (storage : List Nat) : InputBuffer :=
  { buffer := storage, next_input_pos := 0, overflow := false }

/-- Overwrite the bytes of `storage` starting at index `i` with `vs`
(the effect of `storage[i .. i + vs.len()].copy_from_slice(vs)`). -/
def writeSlice (storage : List Nat) (i : Nat) (vs : List Nat) : List Nat :=
  storage.take i ++ vs ++ storage.drop (i + vs.length)

/-- Rust `fn write_area(&mut self) -> &mut [u8]`: the unfilled suffix of storage. -/
def write_area (b : InputBuffer) : List Nat := b.buffer.drop b.next_input_pos

/-- Rust `pub fn push(&mut self, value: u8) -> Result<(), AddError>`. -/
def push (b : InputBuffer) (value : Nat) : InputBuffer × Except AddError Unit :=
  if b.next_input_pos < capacity b then
    ({ b with buffer := b.buffer.set b.next_input_pos value,
              next_input_pos := b.next_input_pos + 1 }, Except.ok ())
  else
    ({ b with overflow := true }, Except.error AddError.Overflow)

/-- Rust `pub fn push_multiple(&mut self, values: &[u8]) -> usize`.
In the first branch `values` is copied into the write area at
`next_input_pos` and the cursor advances; in the overflow branch only the
first `available_space` bytes are copied, the cursor is NOT advanced, the
overflow flag is set, and `available_space` is returned. -/
def push_multiple (b : InputBuffer) (values : List Nat) : InputBuffer × Nat :=
  let available_space := capacity b - len b
  if values.length ≤ available_space then
    ({ b with buffer := writeSlice b.buffer b.next_input_pos values,
              next_input_pos := b.next_input_pos + values.length }, values.length)
  else
    ({ b with buffer := writeSlice b.buffer b.next_input_pos (values.take available_space),
              overflow := true }, available_space)

/-- Rust `pub fn resize(&mut self, new_size: usize)`. -/
def resize (b : InputBuffer) (new_size : Nat) : InputBuffer :=
  { b with next_input_pos := min new_size (capacity b) }

/-- Rust `pub fn clear(&mut self)`. -/
def clear (b : InputBuffer) : InputBuffer :=
  { b with next_input_pos := 0, overflow := false }

/-- Rust `pub fn consume(&mut self, output: &mut [u8]) -> usize`.
Returns the mutated buffer, the mutated output slice, and the count. -/
def consume (b : InputBuffer) (output : List Nat) : InputBuffer × List Nat × Nat :=
  let bytes_to_consume := min (len b) output.length
  if bytes_to_consume = 0 then
    (b, output, 0)
  else
    let output1 := writeSlice output 0 (b.buffer.take bytes_to_consume)
    let new_len := len b - bytes_to_consume
    if new_len = 0 then
      ({ b with next_input_pos := 0 }, output1, bytes_to_consume)
    else
      ({ b with
           buffer := writeSlice b.buffer 0 ((b.buffer.drop bytes_to_consume).take new_len),
           next_input_pos := new_len }, output1, bytes_to_consume)

/-- The structural invariant: the cursor never exceeds the capacity. -/
def Wf (b : InputBuffer) : Prop := b.next_input_pos ≤ capacity b

instance (b : InputBuffer) : Decidable (Wf b) := by
  unfold Wf
  infer_instance

/-- The live bytes of the buffer: the valid prefix `storage[0 .. filled_length)`. -/
def liveBytes (b : InputBuffer) : List Nat := b.buffer.take b.next_input_pos

/-! ### Helper lemmas -/

theorem writeSlice_nil (storage : List Nat) (i : Nat) :
    writeSlice storage i [] = storage := by
  simp [writeSlice]

theorem writeSlice_length (storage vs : List Nat) (i : Nat)
    (h : i + vs.length ≤ storage.length) :
    (writeSlice storage i vs).length = storage.length := by
  simp [writeSlice]
  omega

/-- Full-consume case, as one equation on the whole result. -/
theorem consume_all_aux (b : InputBuffer) (output : List Nat)
    (hwf : Wf b) (h : len b ≤ output.length) :
    consume b output
      = (⟨b.buffer, 0, b.overflow⟩,
         b.buffer.take (len b) ++ output.drop (len b), len b) := by
  obtain ⟨buf, pos, ov⟩ := b
  simp only [Wf, capacity, len] at hwf h ⊢
  by_cases h0 : pos = 0
  · subst h0
    simp [consume, len]
  · have hn : min pos output.length = pos := Nat.min_eq_left h
    have hlen : (buf.take pos).length = pos := List.length_take_of_le hwf
    simp only [consume, len]
    rw [hn, if_neg h0, Nat.sub_self, if_pos rfl]
    simp only [writeSlice, List.take_zero, List.nil_append, Nat.zero_add, hlen]

/-- Partial-consume case, as one equation on the whole result. -/
theorem consume_partial_aux (b : InputBuffer) (output : List Nat)
    (hwf : Wf b) (h : output.length < len b) (h0 : output.length ≠ 0) :
    consume b output
      = (⟨(b.buffer.drop output.length).take (len b - output.length)
            ++ b.buffer.drop (len b - output.length),
          len b - output.length, b.overflow⟩,
         b.buffer.take output.length ++ output.drop output.length,
         output.length) := by
  obtain ⟨buf, pos, ov⟩ := b
  simp only [Wf, capacity, len] at hwf h ⊢
  have hn : min pos output.length = output.length :=
    Nat.min_eq_right (Nat.le_of_lt h)
  have hnz : pos - output.length ≠ 0 := by omega
  have hlen : (buf.take output.length).length = output.length :=
    List.length_take_of_le (by omega)
  have hclen : ((buf.drop output.length).take (pos - output.length)).length
      = pos - output.length := by
    refine List.length_take_of_le ?_
    simp
    omega
  simp only [consume, len]
  rw [hn, if_neg h0, if_neg hnz]
  simp only [writeSlice, List.take_zero, List.nil_append, Nat.zero_add, hlen, hclen]

/-! ### Claim theorems -/

/-- Claim C1 (code bug witness): on the concrete state with storage `[9, 0]` and
`filled_length = 1`, calling `push_multiple [5, 6]` (two bytes, one byte available)
copies the first available byte into storage, sets the overflow flag and returns 1,
but does NOT advance `filled_length`: `len()` stays 1 while `capacity()` is 2, so the
buffer does not become full as the claim states. -/
theorem push_multiple_overflow_not_full :
    push_multiple ⟨[9, 0], 1, false⟩ [5, 6] = (⟨[9, 5], 1, true⟩, 1)
    ∧ len (push_multiple ⟨[9, 0], 1, false⟩ [5, 6]).1 = 1
    ∧ capacity (push_multiple ⟨[9, 0], 1, false⟩ [5, 6]).1 = 2
    ∧ len (push_multiple ⟨[9, 0], 1, false⟩ [5, 6]).1
        ≠ capacity (push_multiple ⟨[9, 0], 1, false⟩ [5, 6]).1 := by
  decide

/-- Claim C2: `push byte` succeeds iff `filled_length < capacity`; on success it writes
the byte at index `filled_length`, increments `filled_length` and leaves the overflow
flag alone; otherwise it sets the overflow flag, fails with the `Overflow` error and
leaves `filled_length` and the storage contents unchanged. -/
theorem push_spec (b : InputBuffer) (v : Nat) :
    ((push b v).2 = Except.ok () ↔ len b < capacity b)
    ∧ (len b < capacity b →
        (push b v).1 = ⟨b.buffer.set b.next_input_pos v, b.next_input_pos + 1, b.overflow⟩)
    ∧ (capacity b ≤ len b →
        (push b v).2 = Except.error AddError.Overflow
          ∧ (push b v).1 = ⟨b.buffer, b.next_input_pos, true⟩) := by
  obtain ⟨buf, pos, ov⟩ := b
  simp only [push, len, capacity]
  split <;> simp_all

/-- Witness for C2 at concrete inputs, covering both branches is not needed: the
success branch at storage `[5, 0]`, cursor 1, pushing byte 7. -/
theorem push_spec_witness :
    (push ⟨[5, 0], 1, false⟩ 7).1 = ⟨([5, 0] : List Nat).set 1 7, 1 + 1, false⟩ :=
  (push_spec ⟨[5, 0], 1, false⟩ 7).2.1 (by decide)

/-- Claim C6: `resize new_size` sets `filled_length` to `min new_size capacity` and
changes nothing else: the overflow flag and the storage contents are untouched. -/
theorem resize_spec (b : InputBuffer) (new_size : Nat) :
    resize b new_size = ⟨b.buffer, min new_size (capacity b), b.overflow⟩ := rfl

/-- Claim C7: `clear` sets `len` to 0 and the overflow flag to false, regardless of the
prior state, leaving the storage bytes untouched (stale, not zeroed) and the capacity
unchanged. -/
theorem clear_spec (b : InputBuffer) :
    clear b = ⟨b.buffer, 0, false⟩
    ∧ len (clear b) = 0
    ∧ overflown (clear b) = false
    ∧ capacity (clear b) = capacity b
    ∧ (clear b).buffer = b.buffer :=
  ⟨rfl, rfl, rfl, rfl, rfl⟩

/-- Claim C9: the overflow flag is monotone under `push` and `push_multiple` (they may
set it, never clear it), is unchanged by `consume` and `resize`, and is reset to false
by `clear` (the only operation that clears it). -/
theorem overflow_transitions :
    (∀ b v, b.overflow = true → (push b v).1.overflow = true)
    ∧ (∀ b vs, b.overflow = true → (push_multiple b vs).1.overflow = true)
    ∧ (∀ b out, (consume b out).1.overflow = b.overflow)
    ∧ (∀ b n, (resize b n).overflow = b.overflow)
    ∧ (∀ b, (clear b).overflow = false) := by
  refine ⟨?_, ?_, ?_, ?_, ?_⟩
  · intro b v h
    simp only [push]
    split <;> simp [h]
  · intro b vs h
    simp only [push_multiple]
    split <;> simp [h]
  · intro b out
    simp only [consume]
    split
    · rfl
    · split <;> rfl
  · intro b n
    rfl
  · intro b
    rfl

/-- Witness for C9 at a concrete input: a buffer with the flag already set keeps it set
through a `push`. -/
theorem overflow_transitions_witness :
    (push ⟨[3], 0, true⟩ 5).1.overflow = true :=
  overflow_transitions.1 ⟨[3], 0, true⟩ 5 rfl

/-- Claim C10: `push_multiple` with an empty slice takes the non-overflow branch on any
state, even a full buffer: it returns 0 and changes nothing.  More generally the flag
after `push_multiple` is set exactly when it was set before or the slice is strictly
longer than the available space; `push` on a full buffer, by contrast, does set it. -/
theorem push_multiple_empty (b : InputBuffer) (v : Nat) (values : List Nat) :
    push_multiple b [] = (b, 0)
    ∧ (push_multiple b values).1.overflow
        = (b.overflow || decide (capacity b - len b < values.length))
    ∧ (capacity b ≤ len b → (push b v).1.overflow = true) := by
  obtain ⟨buf, pos, ov⟩ := b
  refine ⟨?_, ?_, ?_⟩
  · simp [push_multiple, writeSlice, List.take_append_drop]
  · simp only [push_multiple, len, capacity]
    split <;> rename_i hc <;> simp_all
  · intro h
    simp only [push, len, capacity] at h ⊢
    rw [if_neg (by omega)]

/-- Witness for C10 at a concrete input: `push` on the full two-byte buffer sets the
overflow flag. -/
theorem push_multiple_empty_witness :
    (push ⟨[7, 8], 2, false⟩ 9).1.overflow = true :=
  (push_multiple_empty ⟨[7, 8], 2, false⟩ 9 []).2.2 (by decide)

/-- Claim C3: when `values` fits in the available space, `push_multiple` copies all of
`values` into storage starting at `filled_length`, advances `filled_length` by
`values.length`, returns `values.length`, and leaves the overflow flag unchanged. -/
theorem push_multiple_fits (b : InputBuffer) (values : List Nat)
    (hwf : Wf b) (h : values.length ≤ capacity b - len b) :
    push_multiple b values
      = (⟨b.buffer.take b.next_input_pos ++ values
            ++ b.buffer.drop (b.next_input_pos + values.length),
          b.next_input_pos + values.length, b.overflow⟩, values.length)
    ∧ liveBytes (push_multiple b values).1 = liveBytes b ++ values
    ∧ (push_multiple b values).2 = values.length
    ∧ (push_multiple b values).1.overflow = b.overflow := by
  obtain ⟨buf, pos, ov⟩ := b
  have hwf' : pos ≤ buf.length := hwf
  simp only [len, capacity] at h
  have heq : push_multiple ⟨buf, pos, ov⟩ values
      = (⟨buf.take pos ++ values ++ buf.drop (pos + values.length),
          pos + values.length, ov⟩, values.length) := by
    simp only [push_multiple, len, capacity, writeSlice]
    rw [if_pos h]
  have hlen : (buf.take pos).length = pos := List.length_take_of_le hwf'
  refine ⟨heq, ?_, by rw [heq], by rw [heq]⟩
  rw [heq]
  simp only [liveBytes]
  refine List.take_left' ?_
  simp [hlen]

/-- Witness for C3 at a concrete input: pushing `[7, 8]` into a four-byte buffer holding
two live bytes. -/
theorem push_multiple_fits_witness :
    push_multiple ⟨[1, 2, 0, 0], 2, false⟩ [7, 8]
      = (⟨([1, 2, 0, 0] : List Nat).take 2 ++ [7, 8]
            ++ ([1, 2, 0, 0] : List Nat).drop (2 + ([7, 8] : List Nat).length),
          2 + ([7, 8] : List Nat).length, false⟩, ([7, 8] : List Nat).length)
    ∧ liveBytes (push_multiple ⟨[1, 2, 0, 0], 2, false⟩ [7, 8]).1
        = liveBytes ⟨[1, 2, 0, 0], 2, false⟩ ++ [7, 8]
    ∧ (push_multiple ⟨[1, 2, 0, 0], 2, false⟩ [7, 8]).2 = ([7, 8] : List Nat).length
    ∧ (push_multiple ⟨[1, 2, 0, 0], 2, false⟩ [7, 8]).1.overflow = false :=
  push_multiple_fits ⟨[1, 2, 0, 0], 2, false⟩ [7, 8] (by decide) (by decide)

/-- Claim C4: `consume` with an output at least as long as `len` returns the pre-call
`len`, copies all live bytes into the front of the output in order, and empties the
buffer (the storage itself and the overflow flag are untouched). -/
theorem consume_all (b : InputBuffer) (output : List Nat)
    (hwf : Wf b) (h : len b ≤ output.length) :
    (consume b output).2.2 = len b
    ∧ (consume b output).2.1 = liveBytes b ++ output.drop (len b)
    ∧ (consume b output).1 = ⟨b.buffer, 0, b.overflow⟩
    ∧ len (consume b output).1 = 0 := by
  rw [consume_all_aux b output hwf h]
  exact ⟨rfl, rfl, rfl, rfl⟩

/-- Witness for C4 at a concrete input: a three-byte output draining a buffer with two
live bytes. -/
theorem consume_all_witness :
    (consume ⟨[4, 5, 9], 2, false⟩ [0, 0, 0]).2.2 = len ⟨[4, 5, 9], 2, false⟩
    ∧ (consume ⟨[4, 5, 9], 2, false⟩ [0, 0, 0]).2.1
        = liveBytes ⟨[4, 5, 9], 2, false⟩
            ++ ([0, 0, 0] : List Nat).drop (len ⟨[4, 5, 9], 2, false⟩)
    ∧ (consume ⟨[4, 5, 9], 2, false⟩ [0, 0, 0]).1 = ⟨[4, 5, 9], 0, false⟩
    ∧ len (consume ⟨[4, 5, 9], 2, false⟩ [0, 0, 0]).1 = 0 :=
  consume_all ⟨[4, 5, 9], 2, false⟩ [0, 0, 0] (by decide) (by decide)

/-- Claim C5: `consume` with an output strictly shorter than `len` returns the output
length, copies that many bytes from the front, and relocates the remaining live bytes
to start at index 0 in their original order, so that a subsequent full `consume`
retrieves exactly those bytes. -/
theorem consume_partial (b : InputBuffer) (output : List Nat)
    (hwf : Wf b) (h : output.length < len b) :
    (consume b output).2.2 = output.length
    ∧ (consume b output).2.1
        = b.buffer.take output.length ++ output.drop output.length
    ∧ len (consume b output).1 = len b - output.length
    ∧ liveBytes (consume b output).1 = (liveBytes b).drop output.length
    ∧ (consume (consume b output).1
          (List.replicate (len b - output.length) 0)).2.1
        = (liveBytes b).drop output.length := by
  obtain ⟨buf, pos, ov⟩ := b
  have hwf' : pos ≤ buf.length := hwf
  have h' : output.length < pos := h
  by_cases h0 : output.length = 0
  · have hout : output = [] := List.length_eq_zero.mp h0
    subst hout
    have haux := consume_all_aux ⟨buf, pos, ov⟩ (List.replicate pos 0) hwf
      (by simp [len])
    have hearly : consume ⟨buf, pos, ov⟩ [] = (⟨buf, pos, ov⟩, [], 0) := by
      simp [consume, len]
    rw [hearly]
    refine ⟨rfl, by simp, by simp [len], by simp [liveBytes], ?_⟩
    simp only [len, List.length_nil, Nat.sub_zero, List.drop_zero]
    rw [haux]
    simp [liveBytes, len]
  · rw [consume_partial_aux ⟨buf, pos, ov⟩ output hwf h h0]
    simp only [len, liveBytes]
    have hclen : ((buf.drop output.length).take (pos - output.length)).length
        = pos - output.length := by
      refine List.length_take_of_le ?_
      simp
      omega
    have hchunk : (buf.drop output.length).take (pos - output.length)
        = (buf.take pos).drop output.length := by
      rw [List.drop_take]
    refine ⟨trivial, trivial, trivial, ?_, ?_⟩
    · rw [List.take_left' hclen, hchunk]
    · have hwf2 : Wf (⟨(buf.drop output.length).take (pos - output.length)
            ++ buf.drop (pos - output.length),
          pos - output.length, ov⟩ : InputBuffer) := by
        simp only [Wf, capacity, List.length_append, hclen, List.length_drop]
        omega
      rw [consume_all_aux _ _ hwf2 (by simp [len])]
      simp only [len, liveBytes]
      rw [List.take_left' hclen, hchunk]
      simp

/-- Witness for C5 at a concrete input: a two-byte output against three live bytes. -/
theorem consume_partial_witness :
    (consume ⟨[1, 2, 3, 0], 3, false⟩ [0, 0]).2.2 = ([0, 0] : List Nat).length
    ∧ (consume ⟨[1, 2, 3, 0], 3, false⟩ [0, 0]).2.1
        = ([1, 2, 3, 0] : List Nat).take ([0, 0] : List Nat).length
            ++ ([0, 0] : List Nat).drop ([0, 0] : List Nat).length
    ∧ len (consume ⟨[1, 2, 3, 0], 3, false⟩ [0, 0]).1
        = len ⟨[1, 2, 3, 0], 3, false⟩ - ([0, 0] : List Nat).length
    ∧ liveBytes (consume ⟨[1, 2, 3, 0], 3, false⟩ [0, 0]).1
        = (liveBytes ⟨[1, 2, 3, 0], 3, false⟩).drop ([0, 0] : List Nat).length
    ∧ (consume (consume ⟨[1, 2, 3, 0], 3, false⟩ [0, 0]).1
          (List.replicate (len ⟨[1, 2, 3, 0], 3, false⟩ - ([0, 0] : List Nat).length) 0)).2.1
        = (liveBytes ⟨[1, 2, 3, 0], 3, false⟩).drop ([0, 0] : List Nat).length :=
  consume_partial ⟨[1, 2, 3, 0], 3, false⟩ [0, 0] (by decide) (by decide)

/-- Claim C8: the invariant `filled_length ≤ capacity` (the lower bound `0 ≤
filled_length` is automatic for naturals) holds in the state produced by `new` and is
preserved by `push`, `push_multiple`, `consume`, `resize` and `clear`. -/
theorem wf_invariant :
    (∀ storage, Wf (new storage))
    ∧ (∀ b v, Wf b → Wf (push b v).1)
    ∧ (∀ b vs, Wf b → Wf (push_multiple b vs).1)
    ∧ (∀ b out, Wf b → Wf (consume b out).1)
    ∧ (∀ b n, Wf b → Wf (resize b n))
    ∧ (∀ b, Wf b → Wf (clear b)) := by
  refine ⟨?_, ?_, ?_, ?_, ?_, ?_⟩
  · intro s
    simp [Wf, new]
  · intro b v hb
    obtain ⟨buf, pos, ov⟩ := b
    have hb' : pos ≤ buf.length := hb
    simp only [push, capacity]
    split
    · simp_all [Wf, capacity, List.length_set]
      omega
    · simp_all [Wf, capacity]
  · intro b vs hb
    obtain ⟨buf, pos, ov⟩ := b
    have hb' : pos ≤ buf.length := hb
    simp only [push_multiple, len, capacity, writeSlice]
    split <;> rename_i hc <;> simp_all [Wf, capacity]
  · intro b out hb
    obtain ⟨buf, pos, ov⟩ := b
    have hb' : pos ≤ buf.length := hb
    simp only [consume, len, writeSlice]
    split
    · exact hb
    · split <;> rename_i hc <;> simp_all [Wf, capacity]
  · intro b n hb
    simp [Wf, resize, capacity]
  · intro b hb
    simp [Wf, clear, capacity]

/-- Witness for C8 at a concrete input: the invariant survives a `push` into a
half-full two-byte buffer. -/
theorem wf_invariant_witness :
    Wf (push ⟨[0, 0], 1, false⟩ 5).1 :=
  wf_invariant.2.1 ⟨[0, 0], 1, false⟩ 5 (by decide)

end UioBuffer
